import Mathlib

/-!
Verification of the `locker` (attempt counter) and `captcha` (one-time code)
packages against their design specification.

Both packages are thin wrappers over a Redis client.  We embed the observable
Redis state as a map from keys to entries (a string value plus an optional
absolute expiry deadline in milliseconds), and embed each Redis command the
packages use (`GET`, `SET px`, `GETDEL`, `DEL`, `EXISTS`, and the
`incrWithExpire` Lua script) as a function on that state, parameterised by
the current time `t` and by a connectivity-failure flag `fail` (when `fail`
is true every command reports a connection error, modelling an unreachable
store).  Values are stored as strings, exactly as Redis does: the counter is
an integer rendered in decimal, re-parsed by the server on `INCR` (Redis
`string2ll`) and by the Go client on `.Int64()` (Go `strconv.ParseInt`).
-/

/-- A stored Redis entry: the string value and the optional absolute expiry
deadline (milliseconds). -/
structure Entry where
  value : String
  expireAt : Option Nat
deriving DecidableEq

/-- The observable Redis keyspace. -/
abbrev Store := String → Option Entry

/-- The empty keyspace. -/
def Store.empty : Store := fun _ => none

/-- Point update of the keyspace (`none` deletes the key). -/
def setEntry (s : Store) (k : String) (e : Option Entry) : Store :=
  fun k2 => if k2 = k then e else s k2

/-- The entry visible at time `t`: an entry whose deadline has passed is
absent (Redis expiry). -/
def liveEntry (s : Store) (t : Nat) (k : String) : Option Entry :=
  match s k with
  | none => none
  | some e =>
    match e.expireAt with
    | none => some e
    | some d => if t < d then some e else none

/-- Errors observable by the Go code: Redis-level errors (`conn` for
connectivity, `nilReply` for redis.Nil, `notInteger` and `overflow` from
`INCR`), the Go client's `strconv` conversion failure, and the packages' own
sentinel errors (`locked`, `notExists`, `invalidCode`). -/
inductive Err where
  | conn
  | nilReply
  | notInteger
  | overflow
  | strconv
  | locked
  | notExists
  | invalidCode
deriving DecidableEq

deriving instance DecidableEq for Except

/-- go-redis `.Val()`: the command's value, or the type's zero value when the
command returned an error (the error is discarded). -/
def valOr {α : Type} (dflt : α) : Except Err α → α
  | .ok v => v
  | .error _ => dflt

/-! ## Decimal integer strings

Redis stores the counter as a decimal string.  `decValue` is the numeric
value of a big-endian digit string; `parseDigitsInt` applies the 64-bit
range check; `goParseInt` is Go's `strconv.ParseInt(s, 10, 64)` (optional
sign, digits, int64 range); `redisParseInt` is Redis's `string2ll` (no `+`,
no leading zeros except the strings "0" and "-0", int64 range);
`intRender` is the decimal rendering `ll2string` / `Int.repr` produce. -/

/-- Numeric value of a big-endian digit string. -/
def decValue (cs : List Char) : Nat :=
  cs.foldl (fun a c => 10 * a + (c.toNat - 48)) 0

/-- Largest int64. -/
def int64Max : Int := 2 ^ 63 - 1

/-- Digit-string parsing with the 64-bit range check shared by Go's
`strconv.ParseInt` and Redis's `string2ll`: the digits must be nonempty and
the value must fit (magnitude at most `2^63` when negated, `2^63 - 1`
otherwise). -/
def parseDigitsInt (neg : Bool) (ds : List Char) : Option Int :=
  if ds = [] then none
  else if ds.all Char.isDigit then
    let v : Int := (decValue ds : Nat)
    if neg then (if v ≤ 2 ^ 63 then some (-v) else none)
    else (if v ≤ int64Max then some v else none)
  else none

/-- Character-list body of Go `strconv.ParseInt(s, 10, 64)`: optional
`+`/`-` sign followed by at least one digit, within int64 range; anything
else fails. -/
def goParseList : List Char → Option Int
  | [] => none
  | c :: rest =>
    if c = '+' then parseDigitsInt false rest
    else if c = '-' then parseDigitsInt true rest
    else parseDigitsInt false (c :: rest)

/-- Go `strconv.ParseInt(s, 10, 64)`. -/
def goParseInt (s : String) : Option Int :=
  goParseList s.data

/-- Character-list body of Redis `string2ll` (used by `INCR`): "0" and "-0"
parse to 0; otherwise an optional `-` followed by a first digit in 1–9 and
further digits, within int64 range.  No `+` sign and no leading zeros are
accepted. -/
def redisParseList : List Char → Option Int
  | [] => none
  | c :: rest =>
    if c = '0' then (if rest = [] then some 0 else none)
    else if c = '-' then
      match rest with
      | [] => none
      | c2 :: rest2 =>
        if c2 = '0' then (if rest2 = [] then some 0 else none)
        else if '1' ≤ c2 ∧ c2 ≤ '9' ∧ rest2.all Char.isDigit then
          parseDigitsInt true rest
        else none
    else if '1' ≤ c ∧ c ≤ '9' ∧ rest.all Char.isDigit then
      parseDigitsInt false (c :: rest)
    else none

/-- Redis `string2ll` (used by `INCR`). -/
def redisParseInt (s : String) : Option Int :=
  redisParseList s.data

/-- The character for digit `d`. -/
def digitChar (d : Nat) : Char := Char.ofNat (48 + d)

/-- Little-endian decimal digits of `n`, with explicit structural fuel. -/
def natToRevDigits : Nat → Nat → List Nat
  | 0, _ => []
  | _ + 1, 0 => []
  | fuel + 1, n + 1 => ((n + 1) % 10) :: natToRevDigits fuel ((n + 1) / 10)

/-- Decimal rendering of a natural number (big-endian, no leading zeros). -/
def natRender (n : Nat) : List Char :=
  if n = 0 then ['0'] else ((natToRevDigits n n).map digitChar).reverse

/-- Decimal rendering of an integer, as produced by Redis `ll2string` when
storing the result of `INCR`. -/
def intRender (n : Int) : String :=
  if n < 0 then ⟨'-' :: natRender n.natAbs⟩ else ⟨natRender n.natAbs⟩

/-! ## Redis commands -/

namespace Redis

/-- `GET key`: the value of a live key, redis.Nil when absent. Read-only. -/
def get (fail : Bool) (s : Store) (t : Nat) (k : String) : Except Err String :=
  if fail then .error .conn
  else match liveEntry s t k with
    | none => .error .nilReply
    | some e => .ok e.value

/-- `SET key value PX ttl` (go-redis passes no expiry when the duration is
zero): unconditionally overwrites the key. -/
def set (fail : Bool) (s : Store) (t : Nat) (k v : String) (ttl : Nat) :
    Except Err String × Store :=
  if fail then (.error .conn, s)
  else if ttl = 0 then (.ok "OK", setEntry s k (some ⟨v, none⟩))
  else (.ok "OK", setEntry s k (some ⟨v, some (t + ttl)⟩))

/-- `GETDEL key`: atomically reads and removes the key; redis.Nil when
absent. -/
def getDel (fail : Bool) (s : Store) (t : Nat) (k : String) :
    Except Err String × Store :=
  if fail then (.error .conn, s)
  else match liveEntry s t k with
    | none => (.error .nilReply, s)
    | some e => (.ok e.value, setEntry s k none)

/-- `DEL key`: removes the key, returning the number of keys removed. -/
def del (fail : Bool) (s : Store) (t : Nat) (k : String) :
    Except Err Int × Store :=
  if fail then (.error .conn, s)
  else match liveEntry s t k with
    | none => (.ok 0, s)
    | some _ => (.ok 1, setEntry s k none)

/-- `EXISTS key`: 1 when the key is live, 0 otherwise. Read-only. -/
def existsCount (fail : Bool) (s : Store) (t : Nat) (k : String) :
    Except Err Int :=
  if fail then .error .conn
  else match liveEntry s t k with
    | none => .ok 0
    | some _ => .ok 1

/-- `PEXPIRE key ttl`: sets the key's deadline to `t + ttl`; a
non-positive ttl deletes the key. -/
def pexpire (s : Store) (t : Nat) (k : String) (ttl : Nat) : Store :=
  match s k with
  | none => s
  | some e =>
    if ttl = 0 then setEntry s k none
    else setEntry s k (some ⟨e.value, some (t + ttl)⟩)

/-- The `incrWithExpire` Lua script:
`local current = redis.call('INCR', KEYS[1])`;
`if current == 1 then redis.call('PEXPIRE', KEYS[1], ARGV[1]) end`;
`return current`.  `INCR` creates an absent key at 1 with no ttl, re-parses
an existing value with `string2ll` (error when not an integer, error on
int64 overflow), and stores the incremented value without touching the
key's ttl; the script then sets the ttl only when the result is 1. -/
def incrWithExpire (fail : Bool) (s : Store) (t : Nat) (k : String) (ttl : Nat) :
    Except Err Int × Store :=
  if fail then (.error .conn, s)
  else match liveEntry s t k with
  | none =>
      let s1 := setEntry s k (some ⟨intRender 1, none⟩)
      (.ok 1, pexpire s1 t k ttl)
  | some e =>
      match redisParseInt e.value with
      | none => (.error .notInteger, s)
      | some n =>
          if n = int64Max then (.error .overflow, s)
          else
            let s1 := setEntry s k (some ⟨intRender (n + 1), e.expireAt⟩)
            if n + 1 = 1 then (.ok (n + 1), pexpire s1 t k ttl)
            else (.ok (n + 1), s1)

end Redis

/-! ## The `locker` package -/

namespace Locker

/-- `Locker.Key`: `fmt.Sprintf("%s:%s", x.Prefix, name)`. -/
def Key (p name : String) : String := p ++ ":" ++ name

/-- `Locker.Increment`: runs the `incrWithExpire` script on the namespaced
key and returns the post-increment count, propagating any error. -/
def Increment (fail : Bool) (s : Store) (t : Nat) (p name : String) (ttl : Nat) :
    Except Err Int × Store :=
  Redis.incrWithExpire fail s t (Key p name) ttl

/-- `Locker.Check`: `GET` then `.Int64()`; redis.Nil means not locked,
any other error propagates, and a stored count at least `mx` is
`ErrLocked`. -/
def Check (fail : Bool) (s : Store) (t : Nat) (p name : String) (mx : Int) :
    Except Err Unit × Store :=
  match Redis.get fail s t (Key p name) with
  | .error .nilReply => (.ok (), s)
  | .error e => (.error e, s)
  | .ok v =>
      match goParseInt v with
      | none => (.error .strconv, s)
      | some n => if n ≥ mx then (.error .locked, s) else (.ok (), s)

/-- `Locker.Get`: `GET` then `.Int64()`; redis.Nil yields 0, any other
error propagates. -/
def Get (fail : Bool) (s : Store) (t : Nat) (p name : String) :
    Except Err Int :=
  match Redis.get fail s t (Key p name) with
  | .error .nilReply => .ok 0
  | .error e => .error e
  | .ok v =>
      match goParseInt v with
      | none => .error .strconv
      | some n => .ok n

/-- `Locker.Delete`: `x.RDb.Del(ctx, x.Key(name)).Val()` — the command's
value with the error discarded. -/
def Delete (fail : Bool) (s : Store) (t : Nat) (p name : String) :
    Int × Store :=
  let r := Redis.del fail s t (Key p name)
  (valOr 0 r.1, r.2)

end Locker

/-- `n` sequential calls to `Locker.Increment` at time `t` on a healthy
store (the iterated store threading of the claim "after n sequential calls
to increment"). -/
def incrIter (p name : String) (t ttl : Nat) : Nat → Store → Store
  | 0, s => s
  | n + 1, s => (Locker.Increment false (incrIter p name t ttl n s) t p name ttl).2

/-! ## The `captcha` package -/

namespace Captcha

/-- `Captcha.Key`: `fmt.Sprintf("%s:%s", x.Prefix, name)`. -/
def Key (p name : String) : String := p ++ ":" ++ name

/-- `Captcha.Create`: `x.RDb.Set(ctx, x.Key(name), code, ttl).Val()` — the
status string with the error discarded. -/
def Create (fail : Bool) (s : Store) (t : Nat) (p name code : String) (ttl : Nat) :
    String × Store :=
  let r := Redis.set fail s t (Key p name) code ttl
  (valOr "" r.1, r.2)

/-- `Captcha.Exists`: `x.RDb.Exists(ctx, x.Key(name)).Val() != 0` — the
count with the error discarded. -/
def Exists (fail : Bool) (s : Store) (t : Nat) (p name : String) : Bool :=
  valOr 0 (Redis.existsCount fail s t (Key p name)) != 0

/-- `Captcha.Verify`: `GETDEL`, with redis.Nil mapped to `ErrNotExists`, any
other error propagated, a mismatching value `ErrInvalidCode`, and a match
success. -/
def Verify (fail : Bool) (s : Store) (t : Nat) (p name code : String) :
    Except Err Unit × Store :=
  let r := Redis.getDel fail s t (Key p name)
  match r.1 with
  | .error .nilReply => (.error .notExists, r.2)
  | .error e => (.error e, r.2)
  | .ok v => if v ≠ code then (.error .invalidCode, r.2) else (.ok (), r.2)

/-- `Captcha.Delete`: `x.RDb.Del(ctx, x.Key(name)).Val()` — the command's
value with the error discarded. -/
def Delete (fail : Bool) (s : Store) (t : Nat) (p name : String) :
    Int × Store :=
  let r := Redis.del fail s t (Key p name)
  (valOr 0 r.1, r.2)

end Captcha

/-! ## Decimal round-trip: `intRender` is parsed back by `string2ll` and
`strconv.ParseInt` -/

theorem digitChar_toNat {d : Nat} (h : d < 10) : (digitChar d).toNat = 48 + d := by
  interval_cases d <;> rfl

theorem digitChar_isDigit {d : Nat} (h : d < 10) : (digitChar d).isDigit = true := by
  interval_cases d <;> rfl

theorem digitChar_pos_facts {d : Nat} (h1 : 1 ≤ d) (h2 : d < 10) :
    digitChar d ≠ '0' ∧ digitChar d ≠ '-' ∧ '1' ≤ digitChar d ∧ digitChar d ≤ '9' := by
  interval_cases d <;> refine ⟨by decide, by decide, by decide, by decide⟩

theorem foldr_digits (L : List Nat) (h : ∀ d ∈ L, d < 10) :
    List.foldr (fun d a => 10 * a + ((digitChar d).toNat - 48)) 0 L = Nat.ofDigits 10 L := by
  induction L with
  | nil => simp [Nat.ofDigits_nil]
  | cons d L ih =>
    have hd : d < 10 := h d (List.mem_cons_self _ _)
    have htl := ih (fun x hx => h x (List.mem_cons_of_mem _ hx))
    simp only [List.foldr_cons, Nat.ofDigits_cons, htl, digitChar_toNat hd]
    omega

theorem decValue_rev_map (L : List Nat) (h : ∀ d ∈ L, d < 10) :
    decValue ((L.map digitChar).reverse) = Nat.ofDigits 10 L := by
  unfold decValue
  rw [List.foldl_reverse, List.foldr_map]
  exact foldr_digits L h

theorem natToRevDigits_eq_digits : ∀ fuel n, n ≤ fuel →
    natToRevDigits fuel n = Nat.digits 10 n := by
  intro fuel
  induction fuel with
  | zero =>
    intro n hn
    interval_cases n
    simp [natToRevDigits]
  | succ fuel ih =>
    intro n hn
    match n with
    | 0 => simp [natToRevDigits]
    | m + 1 =>
      have hdiv : (m + 1) / 10 ≤ fuel := by
        have := Nat.div_lt_self (Nat.succ_pos m) (by norm_num : 1 < 10)
        omega
      rw [natToRevDigits, ih _ hdiv,
        Nat.digits_def' (by norm_num : 1 < 10) (Nat.succ_pos m)]

theorem redisParse_natRender {n : Nat} (h1 : 1 ≤ n) (h2 : (n : Int) ≤ int64Max) :
    redisParseInt ⟨natRender n⟩ = some (n : Int) := by
  have hn0 : n ≠ 0 := by omega
  have hL : Nat.digits 10 n ≠ [] := Nat.digits_ne_nil_iff_ne_zero.mpr hn0
  have hlt : ∀ d ∈ Nat.digits 10 n, d < 10 :=
    fun d hd => Nat.digits_lt_base (by norm_num) hd
  have hrender : natRender n = ((Nat.digits 10 n).map digitChar).reverse := by
    unfold natRender
    rw [if_neg hn0, natToRevDigits_eq_digits n n le_rfl]
  have hML : Nat.digits 10 n
      = (Nat.digits 10 n).dropLast ++ [(Nat.digits 10 n).getLast hL] :=
    (List.dropLast_append_getLast hL).symm
  have hdmem : (Nat.digits 10 n).getLast hL ∈ Nat.digits 10 n := List.getLast_mem hL
  have hd10 : (Nat.digits 10 n).getLast hL < 10 := hlt _ hdmem
  have hdne : (Nat.digits 10 n).getLast hL ≠ 0 := Nat.getLast_digit_ne_zero 10 hn0
  have hfacts := digitChar_pos_facts (by omega : 1 ≤ (Nat.digits 10 n).getLast hL) hd10
  have hlist : ((Nat.digits 10 n).map digitChar).reverse
      = digitChar ((Nat.digits 10 n).getLast hL)
        :: (((Nat.digits 10 n).dropLast).map digitChar).reverse := by
    conv_lhs => rw [hML]
    simp
  have hall : (((Nat.digits 10 n).dropLast).map digitChar).reverse.all Char.isDigit
      = true := by
    rw [List.all_eq_true]
    intro c hc
    rw [List.mem_reverse] at hc
    obtain ⟨x, hx, rfl⟩ := List.mem_map.mp hc
    exact digitChar_isDigit (hlt x (List.dropLast_subset _ hx))
  have hallfull : (((Nat.digits 10 n).map digitChar).reverse).all Char.isDigit
      = true := by
    rw [hlist, List.all_cons, hall]
    simp [digitChar_isDigit hd10]
  have hne : ((Nat.digits 10 n).map digitChar).reverse ≠ [] := by
    rw [hlist]; exact List.cons_ne_nil _ _
  have hval : (decValue (((Nat.digits 10 n).map digitChar).reverse) : Int) = (n : Int) := by
    rw [decValue_rev_map _ hlt, Nat.ofDigits_digits]
  have hparse : parseDigitsInt false (((Nat.digits 10 n).map digitChar).reverse)
      = some (n : Int) := by
    unfold parseDigitsInt
    rw [if_neg hne, if_pos hallfull]
    simp only [Bool.false_eq_true, if_false, hval, if_pos h2]
  have hstr : redisParseInt ⟨natRender n⟩
      = redisParseList (((Nat.digits 10 n).map digitChar).reverse) := by
    show redisParseList (natRender n) = _
    rw [hrender]
  rw [hstr, hlist]
  simp only [redisParseList]
  rw [if_neg hfacts.1, if_neg hfacts.2.1,
    if_pos ⟨hfacts.2.2.1, hfacts.2.2.2, hall⟩]
  rw [← hlist]
  exact hparse

theorem redisParse_intRender {n : Nat} (h1 : 1 ≤ n) (h2 : (n : Int) ≤ int64Max) :
    redisParseInt (intRender (n : Nat)) = some (n : Int) := by
  unfold intRender
  rw [if_neg (by omega : ¬ ((n : Nat) : Int) < 0)]
  simpa using redisParse_natRender h1 h2

theorem goParse_of_redisParse {s : String} {n : Int} (h : redisParseInt s = some n) :
    goParseInt s = some n := by
  unfold redisParseInt at h
  unfold goParseInt
  cases hs : s.data with
  | nil =>
    rw [hs] at h
    simp [redisParseList] at h
  | cons c rest =>
    rw [hs] at h
    simp only [redisParseList] at h
    simp only [goParseList]
    by_cases hc0 : c = '0'
    · rw [if_pos hc0] at h
      by_cases hr : rest = []
      · rw [if_pos hr] at h
        have hn : n = 0 := by simpa using h.symm
        subst hc0; subst hr; subst hn
        decide
      · rw [if_neg hr] at h; exact absurd h (by simp)
    · rw [if_neg hc0] at h
      by_cases hcm : c = '-'
      · rw [if_pos hcm] at h
        subst hcm
        cases rest with
        | nil => exact absurd h (by simp)
        | cons c2 rest2 =>
          dsimp only at h
          rw [if_neg (by decide : ¬ ('-' : Char) = '+'), if_pos rfl]
          by_cases hc20 : c2 = '0'
          · rw [if_pos hc20] at h
            by_cases hr2 : rest2 = []
            · rw [if_pos hr2] at h
              have hn : n = 0 := by simpa using h.symm
              subst hc20; subst hr2; subst hn
              decide
            · rw [if_neg hr2] at h; exact absurd h (by simp)
          · rw [if_neg hc20] at h
            by_cases hcond : '1' ≤ c2 ∧ c2 ≤ '9' ∧ rest2.all Char.isDigit
            · rw [if_pos hcond] at h; exact h
            · rw [if_neg hcond] at h; exact absurd h (by simp)
      · rw [if_neg hcm] at h
        by_cases hcond : '1' ≤ c ∧ c ≤ '9' ∧ rest.all Char.isDigit
        · rw [if_pos hcond] at h
          have hcp : ¬ c = '+' := by
            intro he; subst he; exact absurd hcond.1 (by decide)
          rw [if_neg hcp, if_neg hcm]
          exact h
        · rw [if_neg hcond] at h; exact absurd h (by simp)

theorem redisParse_none_of_goParse_none {s : String} (h : goParseInt s = none) :
    redisParseInt s = none := by
  cases hr : redisParseInt s with
  | none => rfl
  | some n => rw [goParse_of_redisParse hr] at h; exact absurd h (by simp)

theorem goParse_intRender {n : Nat} (h1 : 1 ≤ n) (h2 : (n : Int) ≤ int64Max) :
    goParseInt (intRender (n : Nat)) = some (n : Int) :=
  goParse_of_redisParse (redisParse_intRender h1 h2)

/-! ## Store and command lemmas -/

theorem setEntry_self (s : Store) (k : String) (e : Option Entry) :
    setEntry s k e k = e := by
  simp [setEntry]

theorem setEntry_other {k k2 : String} (s : Store) (h : k2 ≠ k) (e : Option Entry) :
    setEntry s k e k2 = s k2 := by
  simp [setEntry, h]

theorem setEntry_setEntry (s : Store) (k : String) (e1 e2 : Option Entry) :
    setEntry (setEntry s k e1) k e2 = setEntry s k e2 := by
  funext k2
  unfold setEntry
  by_cases h : k2 = k <;> simp [h]

theorem liveEntry_set_live {s : Store} {k : String} {t d : Nat} {v : String}
    (h : t < d) :
    liveEntry (setEntry s k (some ⟨v, some d⟩)) t k = some ⟨v, some d⟩ := by
  simp [liveEntry, setEntry_self, h]

theorem liveEntry_set_none {s : Store} {k : String} {t : Nat} :
    liveEntry (setEntry s k none) t k = none := by
  simp [liveEntry, setEntry_self]

theorem incrWithExpire_fresh {s : Store} {t : Nat} (ttl : Nat) {k : String}
    (habs : liveEntry s t k = none) (httl : ttl ≠ 0) :
    Redis.incrWithExpire false s t k ttl
      = (.ok 1, setEntry s k (some ⟨intRender 1, some (t + ttl)⟩)) := by
  simp only [Redis.incrWithExpire, habs]
  have hpe : Redis.pexpire (setEntry s k (some ⟨intRender 1, none⟩)) t k ttl
      = setEntry s k (some ⟨intRender 1, some (t + ttl)⟩) := by
    unfold Redis.pexpire
    rw [setEntry_self]
    dsimp only
    rw [if_neg httl, setEntry_setEntry]
  simp [hpe]

theorem incrWithExpire_existing {s : Store} {t : Nat} (ttl : Nat) {k : String} {e : Entry}
    {n : Int} (hcur : liveEntry s t k = some e)
    (hparse : redisParseInt e.value = some n)
    (hmax : n ≠ int64Max) (hone : n + 1 ≠ 1) :
    Redis.incrWithExpire false s t k ttl
      = (.ok (n + 1), setEntry s k (some ⟨intRender (n + 1), e.expireAt⟩)) := by
  simp [Redis.incrWithExpire, hcur, hparse, hmax, hone]

theorem int64Max_eq : int64Max = 9223372036854775807 := by norm_num [int64Max]

theorem incrIter_state {p name : String} {s : Store} {t ttl : Nat}
    (habs : liveEntry s t (Locker.Key p name) = none) (httl : 0 < ttl) :
    ∀ n : Nat, 1 ≤ n → (n : Int) ≤ int64Max →
      incrIter p name t ttl n s (Locker.Key p name)
        = some ⟨intRender (n : Nat), some (t + ttl)⟩ ∧
      (Locker.Increment false (incrIter p name t ttl (n - 1) s) t p name ttl).1
        = .ok (n : Int) := by
  intro n
  induction n with
  | zero => intro h; exact absurd h (by omega)
  | succ m ih =>
    intro _ hle
    by_cases hm : m = 0
    · subst hm
      have hfresh := incrWithExpire_fresh ttl habs (show ttl ≠ 0 by omega)
      refine ⟨?_, ?_⟩
      · show (Locker.Increment false (incrIter p name t ttl 0 s) t p name ttl).2
            (Locker.Key p name) = _
        simp only [incrIter, Locker.Increment, hfresh]
        rw [setEntry_self]
        norm_num
      · simp only [incrIter, Locker.Increment, hfresh]
        norm_num
    · have hm1 : 1 ≤ m := by omega
      have hle' : ((m : Int) + 1) ≤ int64Max := by
        rw [int64Max_eq] at hle ⊢
        push_cast at hle
        omega
      have hmle : (m : Int) ≤ int64Max := by
        rw [int64Max_eq] at hle' ⊢
        omega
      obtain ⟨hstate, _⟩ := ih hm1 hmle
      have hlive : liveEntry (incrIter p name t ttl m s) t (Locker.Key p name)
          = some ⟨intRender (m : Nat), some (t + ttl)⟩ := by
        unfold liveEntry
        rw [hstate]
        simp [Nat.lt_add_of_pos_right httl]
      have hparse : redisParseInt (intRender (m : Nat)) = some (m : Int) :=
        redisParse_intRender hm1 hmle
      have hne : (m : Int) ≠ int64Max := by
        rw [int64Max_eq] at hle' ⊢
        omega
      have hone : (m : Int) + 1 ≠ 1 := by
        have : (1 : Int) ≤ (m : Int) := by exact_mod_cast hm1
        omega
      have hexist := incrWithExpire_existing ttl hlive hparse hne hone
      have hcast : ((m : Int) + 1) = (((m + 1 : Nat) : Int)) := by push_cast; ring
      refine ⟨?_, ?_⟩
      · show (Locker.Increment false (incrIter p name t ttl m s) t p name ttl).2
            (Locker.Key p name) = _
        simp only [Locker.Increment, hexist]
        rw [setEntry_self, hcast]
      · show (Locker.Increment false (incrIter p name t ttl (m + 1 - 1) s) t p name ttl).1
            = _
        simp only [Nat.add_sub_cancel]
        simp only [Locker.Increment, hexist, hcast]

theorem verify_store (fail : Bool) (s : Store) (t : Nat) (p name code : String) :
    (Captcha.Verify fail s t p name code).2
      = (Redis.getDel fail s t (Captcha.Key p name)).2 := by
  unfold Captcha.Verify
  dsimp only
  cases h : (Redis.getDel fail s t (Captcha.Key p name)).1 with
  | error e => cases e <;> rfl
  | ok v =>
    dsimp only
    split <;> rfl

/-! ## Claims -/

/-- C1: TTL monotonicity.  Once the counter's TTL has been set by the
increment that created it (post-increment count 1), a second increment on
the same name before expiry, with any different ttl, leaves the stored
expiry deadline equal to the first ttl's deadline `t1 + ttl1`. -/
theorem ttl_monotonicity {p name : String} {s : Store} {t1 t2 ttl1 ttl2 : Nat}
    (habs : liveEntry s t1 (Locker.Key p name) = none)
    (httl1 : 0 < ttl1) (_hne : ttl2 ≠ ttl1)
    (_h12 : t1 ≤ t2) (hexp : t2 < t1 + ttl1) :
    ∃ e, (Locker.Increment false ((Locker.Increment false s t1 p name ttl1).2)
            t2 p name ttl2).2 (Locker.Key p name) = some e ∧
         e.expireAt = some (t1 + ttl1) := by
  have hfresh := incrWithExpire_fresh ttl1 habs (show ttl1 ≠ 0 by omega)
  have hs1 : (Locker.Increment false s t1 p name ttl1).2
      = setEntry s (Locker.Key p name) (some ⟨intRender 1, some (t1 + ttl1)⟩) := by
    simp [Locker.Increment, hfresh]
  have hlive : liveEntry ((Locker.Increment false s t1 p name ttl1).2) t2
      (Locker.Key p name) = some ⟨intRender 1, some (t1 + ttl1)⟩ := by
    rw [hs1]
    exact liveEntry_set_live hexp
  have hparse : redisParseInt (intRender 1) = some 1 := by decide
  have hexist := incrWithExpire_existing ttl2 hlive hparse
      (show (1 : Int) ≠ int64Max by rw [int64Max_eq]; omega)
      (show (1 : Int) + 1 ≠ 1 by omega)
  refine ⟨⟨intRender 2, some (t1 + ttl1)⟩, ?_, rfl⟩
  show (Redis.incrWithExpire false ((Locker.Increment false s t1 p name ttl1).2)
      t2 (Locker.Key p name) ttl2).2 (Locker.Key p name) = _
  rw [hexist]
  dsimp only
  rw [setEntry_self]
  norm_num

theorem ttl_monotonicity_witness :
    ∃ e, (Locker.Increment false ((Locker.Increment false Store.empty 0 "locker" "dev" 5).2)
            1 "locker" "dev" 9).2 (Locker.Key "locker" "dev") = some e ∧
         e.expireAt = some 5 :=
  ttl_monotonicity (by rfl) (by decide) (by decide) (by decide) (by decide)

/-- C3: verify outcome partition.  On a healthy store, `Captcha.Verify`
succeeds iff a value is present and equals the candidate, returns
`ErrInvalidCode` iff a value is present and differs, and returns
`ErrNotExists` iff no value is present (never created, consumed, or
expired). -/
theorem verify_outcome_partition (s : Store) (t : Nat) (p name cand : String) :
    ((Captcha.Verify false s t p name cand).1 = .ok () ↔
      ∃ e, liveEntry s t (Captcha.Key p name) = some e ∧ e.value = cand) ∧
    ((Captcha.Verify false s t p name cand).1 = .error .invalidCode ↔
      ∃ e, liveEntry s t (Captcha.Key p name) = some e ∧ e.value ≠ cand) ∧
    ((Captcha.Verify false s t p name cand).1 = .error .notExists ↔
      liveEntry s t (Captcha.Key p name) = none) := by
  cases hl : liveEntry s t (Captcha.Key p name) with
  | none => simp [Captcha.Verify, Redis.getDel, hl]
  | some e =>
    by_cases hv : e.value = cand
    · simp [Captcha.Verify, Redis.getDel, hl, hv]
    · simp [Captcha.Verify, Redis.getDel, hl, hv]

/-- C9: `Locker.Check` is read-only — in every state (any store content,
any time, healthy or failing connection) it leaves the store unchanged. -/
theorem check_read_only (fail : Bool) (s : Store) (t : Nat) (p name : String)
    (mx : Int) :
    (Locker.Check fail s t p name mx).2 = s := by
  unfold Locker.Check
  cases h : Redis.get fail s t (Locker.Key p name) with
  | error e => cases e <;> rfl
  | ok v =>
    dsimp only
    cases hg : goParseInt v with
    | none => rfl
    | some n =>
      dsimp only
      split <;> rfl

/-- C10: the `{prefix}:{name}` key derivation does not separate key spaces
across distinct prefixes — there are distinct prefixes and distinct names
(containing the `:` separator) whose derived keys coincide, for both the
locker and the captcha key functions. -/
theorem key_collision :
    ∃ p1 p2 n1 n2 : String, p1 ≠ p2 ∧ n1 ≠ n2 ∧
      ':' ∈ n1.data ∧ ':' ∈ n2.data ∧
      Locker.Key p1 n1 = Locker.Key p2 n2 ∧ Captcha.Key p1 n1 = Captcha.Key p2 n2 :=
  ⟨"a", "a:b", "b:c:d", "c:d", by decide, by decide, by decide, by decide,
    by decide, by decide⟩

/-- C2: exactly-once verification.  After a create, the first verify before
expiry observes the stored value (success on match, `ErrInvalidCode` on
mismatch), removes the entity, and every later verify on the same name with
no intervening create returns `ErrNotExists` and leaves the store
unchanged. -/
theorem verify_exactly_once {p name v cand : String} {s s1 : Store} {t0 t1 ttl : Nat}
    (httl : 0 < ttl) (_h01 : t0 ≤ t1) (hexp : t1 < t0 + ttl)
    (hs1 : s1 = (Captcha.Create false s t0 p name v ttl).2) :
    ((Captcha.Verify false s1 t1 p name cand).1
        = if v = cand then .ok () else .error .invalidCode) ∧
    (Captcha.Verify false s1 t1 p name cand).2 (Captcha.Key p name) = none ∧
    ∀ t2 cand2,
      Captcha.Verify false ((Captcha.Verify false s1 t1 p name cand).2) t2 p name cand2
        = (.error .notExists, (Captcha.Verify false s1 t1 p name cand).2) := by
  have hset : s1 = setEntry s (Captcha.Key p name) (some ⟨v, some (t0 + ttl)⟩) := by
    rw [hs1]
    simp [Captcha.Create, Redis.set, show ttl ≠ 0 by omega]
  have hlive : liveEntry s1 t1 (Captcha.Key p name) = some ⟨v, some (t0 + ttl)⟩ := by
    rw [hset]
    exact liveEntry_set_live hexp
  have hgd : Redis.getDel false s1 t1 (Captcha.Key p name)
      = (.ok v, setEntry s1 (Captcha.Key p name) none) := by
    simp [Redis.getDel, hlive]
  have hst : (Captcha.Verify false s1 t1 p name cand).2
      = setEntry s1 (Captcha.Key p name) none := by
    rw [verify_store, hgd]
  have hkey : (Captcha.Verify false s1 t1 p name cand).2 (Captcha.Key p name)
      = none := by
    rw [hst, setEntry_self]
  have hlive2 : ∀ t2, liveEntry ((Captcha.Verify false s1 t1 p name cand).2) t2
      (Captcha.Key p name) = none := by
    intro t2
    unfold liveEntry
    rw [hkey]
  refine ⟨?_, hkey, ?_⟩
  · by_cases hv : v = cand
    · simp [Captcha.Verify, hgd, hv]
    · simp [Captcha.Verify, hgd, hv]
  · intro t2 cand2
    set s2 := (Captcha.Verify false s1 t1 p name cand).2 with hs2def
    have hl2 : liveEntry s2 t2 (Captcha.Key p name) = none := hlive2 t2
    have hgd2 : Redis.getDel false s2 t2 (Captcha.Key p name)
        = (.error .nilReply, s2) := by
      simp [Redis.getDel, hl2]
    show Captcha.Verify false s2 t2 p name cand2 = (.error .notExists, s2)
    simp [Captcha.Verify, hgd2]

theorem verify_exactly_once_witness :
    ((Captcha.Verify false
        ((Captcha.Create false Store.empty 0 "captcha" "login:bob" "123456" 300000).2)
        10 "captcha" "login:bob" "000000").1
      = if "123456" = "000000" then .ok () else .error .invalidCode) ∧
    (Captcha.Verify false
        ((Captcha.Create false Store.empty 0 "captcha" "login:bob" "123456" 300000).2)
        10 "captcha" "login:bob" "000000").2 (Captcha.Key "captcha" "login:bob")
      = none ∧
    Captcha.Verify false
        ((Captcha.Verify false
          ((Captcha.Create false Store.empty 0 "captcha" "login:bob" "123456" 300000).2)
          10 "captcha" "login:bob" "000000").2) 20 "captcha" "login:bob" "123456"
      = (.error .notExists,
         (Captcha.Verify false
          ((Captcha.Create false Store.empty 0 "captcha" "login:bob" "123456" 300000).2)
          10 "captcha" "login:bob" "000000").2) := by
  have h := @verify_exactly_once "captcha" "login:bob" "123456" "000000" Store.empty
      ((Captcha.Create false Store.empty 0 "captcha" "login:bob" "123456" 300000).2)
      0 10 300000 (by decide) (by decide) (by decide) rfl
  exact ⟨h.1, h.2.1, h.2.2 20 "123456"⟩

/-- C4: count accuracy.  Starting from an absent counter, after `n`
sequential increments (no expiry, no delete) `Locker.Get` returns `n`, and
the k-th increment returned the post-increment count `k ≥ 1`. -/
theorem count_accuracy {p name : String} {s : Store} {t ttl : Nat} {n : Nat}
    (habs : liveEntry s t (Locker.Key p name) = none) (httl : 0 < ttl)
    (hn : 1 ≤ n) (hrange : (n : Int) ≤ int64Max) :
    Locker.Get false (incrIter p name t ttl n s) t p name = .ok (n : Int) ∧
    ∀ k : Nat, 1 ≤ k → k ≤ n →
      (Locker.Increment false (incrIter p name t ttl (k - 1) s) t p name ttl).1
        = .ok (k : Int) ∧ 1 ≤ (k : Int) := by
  constructor
  · obtain ⟨hstate, _⟩ := incrIter_state habs httl n hn hrange
    have hlive : liveEntry (incrIter p name t ttl n s) t (Locker.Key p name)
        = some ⟨intRender (n : Nat), some (t + ttl)⟩ := by
      unfold liveEntry
      rw [hstate]
      simp [Nat.lt_add_of_pos_right httl]
    have hgo : goParseInt (intRender (n : Nat)) = some (n : Int) :=
      goParse_intRender hn hrange
    simp [Locker.Get, Redis.get, hlive, hgo]
  · intro k hk1 hkn
    have hkr : (k : Int) ≤ int64Max := by
      rw [int64Max_eq] at hrange ⊢
      omega
    exact ⟨(incrIter_state habs httl k hk1 hkr).2, by exact_mod_cast hk1⟩

theorem count_accuracy_witness :
    Locker.Get false (incrIter "locker" "dev" 0 60000 3 Store.empty) 0 "locker" "dev"
      = .ok 3 ∧
    (Locker.Increment false (incrIter "locker" "dev" 0 60000 2 Store.empty)
      0 "locker" "dev" 60000).1 = .ok 3 := by
  have h := @count_accuracy "locker" "dev" Store.empty 0 60000 3 rfl (by decide)
      (by decide) (by decide)
  exact ⟨h.1, (h.2 3 (by decide) (by decide)).1⟩

/-- C5: threshold correctness.  For positive `mx`, `Locker.Check` signals
`ErrLocked` iff `Locker.Get` returns a count at least `mx`, and succeeds
whenever the count is below `mx` (the absent counter reads as 0). -/
theorem threshold_correctness (s : Store) (t : Nat) (p name : String) (mx : Int)
    (hmx : 0 < mx) :
    ((Locker.Check false s t p name mx).1 = .error .locked ↔
      ∃ g, Locker.Get false s t p name = .ok g ∧ mx ≤ g) ∧
    ∀ g, Locker.Get false s t p name = .ok g → g < mx →
      (Locker.Check false s t p name mx).1 = .ok () := by
  cases hl : liveEntry s t (Locker.Key p name) with
  | none =>
    have hchk : (Locker.Check false s t p name mx).1 = .ok () := by
      simp [Locker.Check, Redis.get, hl]
    have hget : Locker.Get false s t p name = .ok 0 := by
      simp [Locker.Get, Redis.get, hl]
    refine ⟨?_, fun g hg hlt => hchk⟩
    rw [hchk, hget]
    constructor
    · intro h
      exact absurd h (by simp)
    · rintro ⟨g, hg, hle⟩
      have hg0 : (0 : Int) = g := by simpa using hg
      omega
  | some e =>
    cases hp : goParseInt e.value with
    | none =>
      have hchk : (Locker.Check false s t p name mx).1 = .error .strconv := by
        simp [Locker.Check, Redis.get, hl, hp]
      have hget : Locker.Get false s t p name = .error .strconv := by
        simp [Locker.Get, Redis.get, hl, hp]
      refine ⟨?_, fun g hg hlt => by rw [hget] at hg; exact absurd hg (by simp)⟩
      rw [hchk, hget]
      constructor
      · intro h
        exact absurd h (by simp)
      · rintro ⟨g, hg, _⟩
        exact absurd hg (by simp)
    | some c =>
      have hget : Locker.Get false s t p name = .ok c := by
        simp [Locker.Get, Redis.get, hl, hp]
      by_cases hge : c ≥ mx
      · have hchk : (Locker.Check false s t p name mx).1 = .error .locked := by
          simp [Locker.Check, Redis.get, hl, hp, hge]
        refine ⟨?_, fun g hg hlt => ?_⟩
        · rw [hchk, hget]
          constructor
          · intro _
            exact ⟨c, rfl, hge⟩
          · intro _
            rfl
        · rw [hget] at hg
          have hgc : c = g := by simpa using hg
          omega
      · have hchk : (Locker.Check false s t p name mx).1 = .ok () := by
          simp [Locker.Check, Redis.get, hl, hp, hge]
        refine ⟨?_, fun g hg hlt => hchk⟩
        rw [hchk, hget]
        constructor
        · intro h
          exact absurd h (by simp)
        · rintro ⟨g, hg, hle⟩
          have hgc : c = g := by simpa using hg
          omega

theorem threshold_correctness_witness :
    ((Locker.Check false (setEntry Store.empty (Locker.Key "locker" "dev")
        (some ⟨"3", none⟩)) 0 "locker" "dev" 3).1 = .error .locked ↔
      ∃ g, Locker.Get false (setEntry Store.empty (Locker.Key "locker" "dev")
        (some ⟨"3", none⟩)) 0 "locker" "dev" = .ok g ∧ 3 ≤ g) ∧
    (Locker.Check false (setEntry Store.empty (Locker.Key "locker" "dev")
        (some ⟨"3", none⟩)) 0 "locker" "dev" 5).1 = .ok () :=
  ⟨(threshold_correctness _ 0 "locker" "dev" 3 (by decide)).1,
   (threshold_correctness _ 0 "locker" "dev" 5 (by decide)).2 3 (by decide) (by decide)⟩

/-- C7: delete idempotence.  Deleting an absent counter returns 0 with no
error and leaves the store untouched; deleting a present counter returns 1
and leaves it absent, so an immediately following delete returns 0. -/
theorem delete_idempotence (s : Store) (t : Nat) (p name : String) :
    (liveEntry s t (Locker.Key p name) = none →
      Locker.Delete false s t p name = (0, s) ∧
      (Redis.del false s t (Locker.Key p name)).1 = .ok 0) ∧
    ∀ e, liveEntry s t (Locker.Key p name) = some e →
      (Locker.Delete false s t p name).1 = 1 ∧
      liveEntry ((Locker.Delete false s t p name).2) t (Locker.Key p name) = none ∧
      (Locker.Delete false ((Locker.Delete false s t p name).2) t p name).1 = 0 := by
  constructor
  · intro h
    constructor
    · simp [Locker.Delete, Redis.del, valOr, h]
    · simp [Redis.del, h]
  · intro e h
    have hdel : Redis.del false s t (Locker.Key p name)
        = (.ok 1, setEntry s (Locker.Key p name) none) := by
      simp [Redis.del, h]
    have hs2 : (Locker.Delete false s t p name).2
        = setEntry s (Locker.Key p name) none := by
      simp [Locker.Delete, hdel]
    refine ⟨?_, ?_, ?_⟩
    · simp [Locker.Delete, hdel, valOr]
    · rw [hs2]
      exact liveEntry_set_none
    · rw [hs2]
      simp [Locker.Delete, Redis.del, liveEntry_set_none, valOr]

theorem delete_idempotence_witness :
    (Locker.Delete false Store.empty 0 "locker" "ghost" = (0, Store.empty) ∧
      (Redis.del false Store.empty 0 (Locker.Key "locker" "ghost")).1 = .ok 0) ∧
    ((Locker.Delete false (setEntry Store.empty (Locker.Key "locker" "dev")
        (some ⟨"3", none⟩)) 0 "locker" "dev").1 = 1 ∧
      liveEntry ((Locker.Delete false (setEntry Store.empty (Locker.Key "locker" "dev")
        (some ⟨"3", none⟩)) 0 "locker" "dev").2) 0 (Locker.Key "locker" "dev") = none ∧
      (Locker.Delete false ((Locker.Delete false (setEntry Store.empty
        (Locker.Key "locker" "dev") (some ⟨"3", none⟩)) 0 "locker" "dev").2)
        0 "locker" "dev").1 = 0) :=
  ⟨(delete_idempotence Store.empty 0 "locker" "ghost").1 rfl,
   (delete_idempotence _ 0 "locker" "dev").2 ⟨"3", none⟩ (by decide)⟩

/-- C8: malformed stored counter data.  When the stored value for a name is
not a well-formed integer string, `Locker.Get` and `Locker.Check` return the
client's conversion error and `Locker.Increment` returns the server's
not-an-integer error; none of them coerces the value to a count. -/
theorem malformed_counter_errors (s : Store) (t : Nat) (p name : String) (mx : Int)
    (ttl : Nat) (e : Entry) (hcur : liveEntry s t (Locker.Key p name) = some e)
    (hbad : goParseInt e.value = none) :
    Locker.Get false s t p name = .error .strconv ∧
    (Locker.Check false s t p name mx).1 = .error .strconv ∧
    (Locker.Increment false s t p name ttl).1 = .error .notInteger := by
  have hrbad : redisParseInt e.value = none := redisParse_none_of_goParse_none hbad
  refine ⟨?_, ?_, ?_⟩
  · simp [Locker.Get, Redis.get, hcur, hbad]
  · simp [Locker.Check, Redis.get, hcur, hbad]
  · simp [Locker.Increment, Redis.incrWithExpire, hcur, hrbad]

theorem malformed_counter_errors_witness :
    Locker.Get false (setEntry Store.empty (Locker.Key "locker" "dev")
      (some ⟨"abc", none⟩)) 0 "locker" "dev" = .error .strconv ∧
    (Locker.Check false (setEntry Store.empty (Locker.Key "locker" "dev")
      (some ⟨"abc", none⟩)) 0 "locker" "dev" 3).1 = .error .strconv ∧
    (Locker.Increment false (setEntry Store.empty (Locker.Key "locker" "dev")
      (some ⟨"abc", none⟩)) 0 "locker" "dev" 5).1 = .error .notInteger :=
  malformed_counter_errors _ 0 "locker" "dev" 3 5 ⟨"abc", none⟩ (by decide) (by decide)

/-- C6, counterexample to the claim as stated: when the store command fails,
`Locker.Delete` still returns 0 with no error indication — exactly the value
an error-free delete of an absent counter returns — and `Captcha.Create`
returns the empty string while storing nothing.  The store error is
discarded by `.Val()` and a default result substituted. -/
theorem delete_swallows_store_error :
    (Redis.del true Store.empty 0 (Locker.Key "locker" "dev")).1 = .error .conn ∧
    (Locker.Delete true Store.empty 0 "locker" "dev").1 = 0 ∧
    (Locker.Delete false Store.empty 0 "locker" "dev").1 = 0 ∧
    (Redis.set true Store.empty 0 (Captcha.Key "captcha" "a") "1234" 5).1
      = .error .conn ∧
    (Captcha.Create true Store.empty 0 "captcha" "a" "1234" 5).1 = "" ∧
    (Captcha.Create true Store.empty 0 "captcha" "a" "1234" 5).2
      (Captcha.Key "captcha" "a") = none :=
  ⟨rfl, rfl, rfl, rfl, rfl, rfl⟩

/-- C6, as amended: the operations whose Go signatures carry an error value
(`Locker.Increment`, `Locker.Check`, `Locker.Get`, `Captcha.Verify`)
propagate every store error to their immediate caller, while `Locker.Delete`,
`Captcha.Create`, `Captcha.Exists` and `Captcha.Delete` call `.Val()` and so
discard store errors, returning the zero value (0, "", false, 0). -/
theorem error_propagation_actual (s : Store) (t : Nat) (p name code : String)
    (ttl : Nat) (mx : Int) :
    (Locker.Increment true s t p name ttl).1 = .error .conn ∧
    (Locker.Check true s t p name mx).1 = .error .conn ∧
    Locker.Get true s t p name = .error .conn ∧
    (Captcha.Verify true s t p name code).1 = .error .conn ∧
    (Locker.Delete true s t p name).1 = 0 ∧
    (Captcha.Create true s t p name code ttl).1 = "" ∧
    Captcha.Exists true s t p name = false ∧
    (Captcha.Delete true s t p name).1 = 0 :=
  ⟨rfl, rfl, rfl, rfl, rfl, rfl, rfl, rfl⟩
